import Mathlib

/-!
Verification development for the Image-Converter repository.

The repository is a browser-based image format converter.  Its core logic
lives in two React components:

* `ImageFileCard` (src/src/components/image-file-card.tsx): the per-item
  converter — `convertImage` decodes a data URL into an `<img>`, draws it on
  a canvas over a white fill, and re-encodes via `canvas.toDataURL` (or
  `jsPDF` for PDF output); `handleConvert` drives the per-card state machine
  `idle | converting | success | error` and derives the output filename.
* `ImageConverterClient` (the batch controller): `handleFiles` adds uploads
  (filtering to image MIME types and de-duplicating by the identity string
  `name-lastModified-size`), `removeFile` / `removeAll` revoke preview object
  URLs and evict items, and `handleConvertAll` runs every card's conversion
  under `Promise.all`.

This file gives a shallow embedding of those functions and proves the spec's
claims about them.  Platform primitives are modelled as follows:

* an image raster is a width, a height, and a pixel function (8-bit RGBA);
* `canvas.drawImage` with a destination rectangle is modelled as
  nearest-neighbour resampling composited with Porter-Duff source-over (the
  browser's exact resampling filter is platform-defined; every property
  proved here depends only on the compositing, not on the filter);
* `canvas.toDataURL` is modelled as total: per the HTML standard an
  unsupported or missing MIME type falls back to `image/png`.  Host-specific
  exceptions (`SecurityError` on tainted canvases) are environmental and are
  represented by the error constructors that the source's catch-block maps
  them to, but the deterministic pixel pipeline itself never taints a canvas;
* object URLs (`URL.createObjectURL` / `URL.revokeObjectURL`) are modelled by
  a counter allocating fresh tokens plus a log of revocations.
-/

/-! ### Formats and MIME types (image-file-card.tsx, lines 26-36) -/

/-- The `formatToMime` record from image-file-card.tsx, as an association
list. -/
def formatToMime : List (String × String) :=
  [("jpeg", "image/jpeg"), ("jpg", "image/jpeg"), ("png", "image/png"),
   ("ico", "image/x-icon"), ("webp", "image/webp"), ("bmp", "image/bmp"),
   ("gif", "image/gif"), ("tiff", "image/tiff"), ("pdf", "application/pdf")]

/-- The closed set of selectable output formats (the `OutputFormat` union
type in image-converter-client.tsx). -/
def outputFormats : List String :=
  ["png", "jpeg", "webp", "bmp", "gif", "tiff", "pdf", "ico"]

/-- Function `getFileExtension` from image-file-card.tsx, lines 54-57. -/
def getFileExtension (format : String) : String :=
  if format = "jpeg" then "jpg" else format

/-! ### Raster model -/

/-- An 8-bit RGBA pixel (each channel intended to lie in 0..255). -/
structure RGBA where
  r : Nat
  g : Nat
  b : Nat
  a : Nat
deriving DecidableEq, Repr

/-- Opaque white, the canvas fill colour `#FFFFFF` used by `convertImage`. -/
def white : RGBA := ⟨255, 255, 255, 255⟩

/-- A pixel whose channels all lie in the 8-bit range. -/
def RGBA.InRange (c : RGBA) : Prop :=
  c.r ≤ 255 ∧ c.g ≤ 255 ∧ c.b ≤ 255 ∧ c.a ≤ 255

/-- Porter-Duff source-over at 8-bit depth with integer division, the
default canvas compositing operation applied by `ctx.drawImage`. -/
def over (s d : RGBA) : RGBA :=
  ⟨(s.r * s.a + d.r * (255 - s.a)) / 255,
   (s.g * s.a + d.g * (255 - s.a)) / 255,
   (s.b * s.a + d.b * (255 - s.a)) / 255,
   (s.a * 255 + d.a * (255 - s.a)) / 255⟩

/-- A decoded image raster: what the browser produces from a data URL when
`img.onload` fires. -/
structure Img where
  width : Nat
  height : Nat
  pix : Nat → Nat → RGBA

/-- A canvas bitmap. -/
structure Canvas where
  width : Nat
  height : Nat
  pix : Nat → Nat → RGBA

/-- Model of `document.createElement("canvas")` with the given dimensions; canvas
pixels start as transparent black. -/
def createCanvas (w h : Nat) : Canvas :=
  ⟨w, h, fun _ _ => ⟨0, 0, 0, 0⟩⟩

/-- Model of `ctx.fillRect(x0, y0, w, h)` with fill colour `col`. -/
def fillRect (c : Canvas) (col : RGBA) (x0 y0 w h : Nat) : Canvas :=
  { c with pix := fun x y =>
      if x0 ≤ x ∧ x < x0 + w ∧ y0 ≤ y ∧ y < y0 + h then col else c.pix x y }

/-- Model of `ctx.drawImage(img, 0, 0, dw, dh)`: scale `img` to `dw × dh`
(nearest-neighbour model of the platform resampler) and composite it
source-over onto the canvas. -/
def drawImage (c : Canvas) (img : Img) (dw dh : Nat) : Canvas :=
  { c with pix := fun x y =>
      if x < dw ∧ y < dh then
        over (img.pix (x * img.width / dw) (y * img.height / dh)) (c.pix x y)
      else c.pix x y }

/-! ### convertImage (image-file-card.tsx, lines 59-115) -/

/-- The rejection reasons of `convertImage`'s promise. -/
inductive ConvError
  /-- Case `img.onerror`: "Could not load image. It might be corrupted or in an
  unsupported format." -/
  | decodeError
  /-- Case where `getContext("2d")` returned null: "Could not get canvas context". -/
  | noCanvasContext
  /-- Case where `toDataURL` threw a `SecurityError` (tainted canvas). -/
  | securityError (format : String)
  /-- any other `toDataURL` exception: "Your browser may not support
  conversion to ...". -/
  | encodeUnsupported (format : String)
deriving DecidableEq, Repr

/-- The resolved value of `convertImage`: either a raster data URL with its
MIME type and JPEG quality factor, or (for PDF) a one-page document of the
stated page size with the canvas embedded as a PNG. -/
inductive Payload
  | raster (mime : String) (quality : Option ℚ) (canvas : Canvas)
  | pdf (landscape : Bool) (pageW pageH : Nat) (embedded : Canvas)

/-- Function `convertImage(dataUrl, format)` from image-file-card.tsx.  The input data
URL is represented by the browser's decode result: `some img` when
`img.onload` fires with raster `img`, `none` when `img.onerror` fires. -/
def convertImage (decoded : Option Img) (format : String) :
    Except ConvError Payload :=
  match decoded with
  | none => .error .decodeError
  | some img =>
    let width := if format = "ico" then 32 else img.width
    let height := if format = "ico" then 32 else img.height
    let filled := fillRect (createCanvas width height) white 0 0 width height
    if format = "pdf" then
      let canvas := drawImage filled img width height
      .ok (.pdf (decide (width > height)) width height canvas)
    else
      let canvas := drawImage filled img width height
      let mimeType :=
        if format = "ico" then "image/png"
        else ((formatToMime.lookup format).getD "image/png")
      let quality : Option ℚ := if format = "jpeg" then some (9 / 10) else none
      .ok (.raster mimeType quality canvas)

/-- Dimensions of a delivered payload (canvas size for rasters, page size
for PDFs), `none` on a failed conversion. -/
def payloadDims : Except ConvError Payload → Option (Nat × Nat)
  | .ok (.raster _ _ c) => some (c.width, c.height)
  | .ok (.pdf _ w h _) => some (w, h)
  | .error _ => none

/-- MIME type of a delivered raster payload, `none` for PDFs and failures. -/
def payloadMime : Except ConvError Payload → Option String
  | .ok (.raster m _ _) => some m
  | _ => none

/-- The pixel bitmap actually delivered (the canvas for rasters, the
embedded PNG bitmap for PDFs). -/
def resultCanvas : Except ConvError Payload → Option Canvas
  | .ok (.raster _ _ c) => some c
  | .ok (.pdf _ _ _ c) => some c
  | .error _ => none

/-- Whether the conversion rejected with the decode-failure message. -/
def isDecodeErr : Except ConvError Payload → Bool
  | .error .decodeError => true
  | _ => false

/-- Alpha channel of one delivered pixel (used to state flattening facts on
concrete inputs). -/
def resultPixel (e : Except ConvError Payload) (x y : Nat) : Option RGBA :=
  (resultCanvas e).map (fun c => c.pix x y)

/-! ### Output filename derivation (image-file-card.tsx, lines 126-131)

`handleConvert` computes
`originalName = fileData.file.name.substring(0, name.lastIndexOf('.'))` and
delivers `` `${originalName}.${getFileExtension(finalFormat)}` ``.
JavaScript string indices are modelled on the character list (all the
properties proved are index-arithmetic-free, so UTF-16 versus codepoint
indexing does not matter for them). -/

/-- Model of `String.prototype.lastIndexOf('.')`: index of the last dot, `-1` when
there is none. -/
def lastDotIdx : List Char → Int
  | [] => -1
  | c :: rest =>
    let r := lastDotIdx rest
    if r ≥ 0 then r + 1 else if c = '.' then 0 else -1

/-- The basename `name.substring(0, name.lastIndexOf('.'))`: JavaScript `substring`
clamps a negative end index to 0, so a dotless name yields `""`. -/
def jsBasename (name : String) : String :=
  String.mk (name.data.take (lastDotIdx name.data).toNat)

/-- The delivered filename `` `${originalName}.${newExtension}` `` from
`handleConvert`. -/
def deriveFileName (name : String) (format : String) : String :=
  jsBasename name ++ "." ++ getFileExtension format

/-! ### Per-card state machine (image-file-card.tsx, lines 48-148) -/

/-- Type `ConversionStatus` from image-file-card.tsx, line 15. -/
inductive ConversionStatus
  | idle
  | converting
  | success
  | error
deriving DecidableEq, Repr

/-- The `useState` cells of one `ImageFileCard`: the selected output format,
the conversion status, and the result (converted payload plus suggested
filename, `null` when absent). -/
structure CardState where
  outputFormat : String
  status : ConversionStatus
  result : Option (Payload × String)

/-- Initial card state: `useState("png")`, `useState("idle")`,
`useState(null)`. -/
def initialCardState : CardState :=
  ⟨"png", .idle, none⟩

/-- The synchronous prefix of `handleConvert(format?)`: commit the requested
format if one was passed, clear the result, and enter `converting`. -/
def startConvert (s : CardState) (fmt : Option String) : CardState :=
  { s with outputFormat := fmt.getD s.outputFormat,
           result := none,
           status := .converting }

/-- The continuation of `handleConvert` once `convertImage` settles: on
success store the payload under the derived filename and enter `success`;
on failure toast and enter `error` (the result stays cleared). -/
def finishConvert (s : CardState) (finalFormat : String) (origName : String)
    (outcome : Except ConvError Payload) : CardState :=
  match outcome with
  | .ok payload =>
      { s with result := some (payload, deriveFileName origName finalFormat),
               status := .success }
  | .error _ => { s with status := .error }

/-- One observable step of a card: a convert request (from any state — the
batch controller calls `handleConvert` directly through the ref), the
settlement of a pending conversion (`handleConvert`'s continuation after
the `await` runs unconditionally, so when conversions overlap a settlement
may fire from any status, not only `converting`), or picking a format in
the select box (disabled while converting). -/
inductive CardStep : CardState → CardState → Prop
  | start (s : CardState) (fmt : Option String) :
      CardStep s (startConvert s fmt)
  | finish (s : CardState) (finalFormat origName : String)
      (outcome : Except ConvError Payload) :
      CardStep s (finishConvert s finalFormat origName outcome)
  | select (s : CardState) (fmt : String) (h : s.status ≠ .converting) :
      CardStep s { s with outputFormat := fmt }

/-- The card invariant: a result is stored exactly in the `success` state. -/
def CardInv (s : CardState) : Prop :=
  s.result.isSome ↔ s.status = .success

/-- The status transitions the spec allows: `idle → converting`,
`converting → success | error`, and restart `success | error →
converting`. -/
def allowedTransition (a b : ConversionStatus) : Prop :=
  (a = .idle ∧ b = .converting) ∨
  (a = .converting ∧ (b = .success ∨ b = .error)) ∨
  ((a = .success ∨ a = .error) ∧ b = .converting)

instance (a b : ConversionStatus) : Decidable (allowedTransition a b) := by
  unfold allowedTransition; infer_instance

/-! ### Batch controller state (image-converter-client.tsx) -/

/-- The metadata of a browser `File` object that the controller reads:
`name`, `lastModified`, `size`, and the MIME `type`. -/
structure RFile where
  name : String
  lastModified : Nat
  size : Nat
  type : String
deriving DecidableEq, Repr

/-- The identity string `` `${file.name}-${file.lastModified}-${file.size}` ``
from `handleFiles`. -/
def fileId (f : RFile) : String :=
  f.name ++ "-" ++ toString f.lastModified ++ "-" ++ toString f.size

/-- The `IFile` interface: id, the file, and its preview object URL
(object URLs are modelled as natural-number tokens). -/
structure IFile where
  id : String
  file : RFile
  preview : Nat
deriving DecidableEq, Repr

/-- The object-URL facility of the host: a fresh-token counter for
`URL.createObjectURL` and a log of every `URL.revokeObjectURL` call. -/
structure UrlStore where
  next : Nat
  released : List Nat
deriving DecidableEq, Repr

/-- Model of `URL.createObjectURL(file)`: allocate a fresh token. -/
def createObjectURL (u : UrlStore) : Nat × UrlStore :=
  (u.next, { u with next := u.next + 1 })

/-- Model of `URL.revokeObjectURL(token)`: record the release. -/
def revokeObjectURL (u : UrlStore) (t : Nat) : UrlStore :=
  { u with released := t :: u.released }

/-- The toast notifications the batch controller can raise while managing
the file set. -/
inductive ClientToast
  /-- "Invalid File Type — Please upload only image files." -/
  | invalidFileType
deriving DecidableEq, Repr

/-- The batch controller's state: the `files` list, the host object-URL
facility, and the log of raised toasts (most recent first). -/
structure ClientState where
  files : List IFile
  urls : UrlStore
  toasts : List ClientToast
deriving DecidableEq, Repr

/-- The initial controller state: `useState<IFile[]>([])`. -/
def initialClientState : ClientState :=
  ⟨[], ⟨0, []⟩, []⟩

/-- The `.map` body of `handleFiles`: build one `IFile` per incoming file,
allocating a preview object URL for each. -/
def allocPreviews (u : UrlStore) : List RFile → List IFile × UrlStore
  | [] => ([], u)
  | f :: rest =>
    let url := (createObjectURL u).1
    let step := allocPreviews (createObjectURL u).2 rest
    (⟨fileId f, f, url⟩ :: step.1, step.2)

/-- Model of `String.prototype.startsWith(p)`, written on the character list (an
evaluable prefix test). -/
def strStartsWith (s p : String) : Bool :=
  s.data.take p.data.length == p.data

/-- Function `handleFiles(incomingFiles)` from image-converter-client.tsx, lines
46-71: keep only image-typed files, toast and bail if none remain, else
append the new items whose identity is not already present. -/
def handleFiles (s : ClientState) (incoming : List RFile) : ClientState :=
  let imageFiles := incoming.filter (fun f => strStartsWith f.type "image/")
  let alloc := allocPreviews s.urls imageFiles
  if alloc.1.isEmpty then
    { s with urls := alloc.2, toasts := .invalidFileType :: s.toasts }
  else
    let existingIds := s.files.map (fun f => f.id)
    { s with
        files := s.files ++ alloc.1.filter (fun f => !(existingIds.contains f.id)),
        urls := alloc.2 }

/-- Function `removeFile(id)` from image-converter-client.tsx, lines 99-108: revoke
the preview of the (first) file with that id, if any, and drop every file
with that id from the list. -/
def removeFile (s : ClientState) (id : String) : ClientState :=
  let urls1 :=
    match s.files.find? (fun f => f.id = id) with
    | some fileToRemove => revokeObjectURL s.urls fileToRemove.preview
    | none => s.urls
  { s with files := s.files.filter (fun f => f.id ≠ id), urls := urls1 }

/-- Function `removeAll()` from image-converter-client.tsx, lines 110-114: revoke
every file's preview and clear the list. -/
def removeAll (s : ClientState) : ClientState :=
  { s with files := [],
           urls := s.files.foldl (fun u f => revokeObjectURL u f.preview) s.urls }

/-- Controller well-formedness: item identities are pairwise distinct, item
previews are pairwise distinct, and every item's preview is a live object
URL (allocated and not yet revoked). -/
def ClientState.WF (s : ClientState) : Prop :=
  (s.files.map (fun f => f.id)).Nodup ∧
  (s.files.map (fun f => f.preview)).Nodup ∧
  ∀ f ∈ s.files, f.preview < s.urls.next ∧ f.preview ∉ s.urls.released

/-! ### Batch conversion (image-converter-client.tsx, lines 116-143)

`handleConvertAll` maps every current file to a `handleConvert` promise and
awaits `Promise.all`.  Each per-item promise is abstracted to its terminal
outcome and the instant it settles; per ECMA-262, `Promise.all` fulfils
after the last fulfilment and rejects at the first rejection. -/

/-- The terminal outcome of one card's `handleConvert` promise. -/
inductive ItemOutcome
  | success
  | failure
deriving DecidableEq, Repr

/-- One per-item conversion task: its terminal outcome and the instant it
reaches it.  Tasks are never cancelled — each reaches its terminal state
regardless of its siblings. -/
structure ItemTask where
  outcome : ItemOutcome
  settleTime : Nat
deriving DecidableEq, Repr

/-- The instant the last task of the batch reaches a terminal state. -/
def lastSettleTime (ts : List ItemTask) : Nat :=
  (ts.map (fun t => t.settleTime)).foldr max 0

/-- The instant of the first rejection, if any task fails. -/
def firstRejectTime (ts : List ItemTask) : Option Nat :=
  ((ts.filter (fun t => t.outcome = ItemOutcome.failure)).map
    (fun t => t.settleTime)).min?

/-- When the `Promise.all` awaited by `handleConvertAll` settles: at the
first rejection when some task fails, else after the last fulfilment. -/
def promiseAllSettleTime (ts : List ItemTask) : Nat :=
  match firstRejectTime ts with
  | some t => t
  | none => lastSettleTime ts

/-- The toast `handleConvertAll` shows once its `Promise.all` settles. -/
inductive BatchToast
  /-- "Batch Conversion Complete — Converted ⟨n⟩ images to ⟨format⟩." -/
  | batchComplete (count : Nat) (format : String)
  /-- "Batch Conversion Failed — Some images could not be converted."
  (No counts are included.) -/
  | batchFailed
deriving DecidableEq, Repr

/-- The toast raised by `handleConvertAll`: the success message reports
`files.length`, the failure message is generic. -/
def handleConvertAllToast (ts : List ItemTask) (format : String) : BatchToast :=
  if ts.all (fun t => t.outcome = ItemOutcome.success) then
    .batchComplete ts.length format
  else .batchFailed

/-! ### Concrete inputs used by counterexamples and witnesses -/

/-- A 100×50 opaque test raster. -/
def testImg : Img := ⟨100, 50, fun _ _ => ⟨10, 20, 30, 128⟩⟩

/-- A 2×3 opaque test raster. -/
def goodImg : Img := ⟨2, 3, fun _ _ => ⟨5, 6, 7, 255⟩⟩

/-- A 4×4 fully transparent test raster. -/
def transparentImg : Img := ⟨4, 4, fun _ _ => ⟨0, 0, 0, 0⟩⟩

/-- A test upload. -/
def dupFile : RFile := ⟨"a.png", 1, 10, "image/png"⟩

/-- A controller state holding one uploaded item. -/
def oneItemState : ClientState := handleFiles initialClientState [dupFile]

/-- The duplicate-identity controller state reached by a single upload call
whose list repeats the same file: two items share one identity but hold the
distinct preview tokens 0 and 1. -/
def dupState : ClientState := handleFiles initialClientState [dupFile, dupFile]

/-- The card after two overlapping convert requests: the user clicks the
card's own Convert button (entering `converting`) and Convert All then
re-invokes `handleConvert` on the same card before the first conversion
settles. -/
def overlapConvertingState : CardState :=
  startConvert (startConvert initialCardState (some "png")) (some "png")

/-- The overlapped card once the first conversion settles successfully:
status `success` with the result populated, while the second conversion is
still pending. -/
def overlapSuccessState : CardState :=
  finishConvert overlapConvertingState "png" "a.png"
    (convertImage (some goodImg) "png")

/-- A batch of five conversion tasks where the third is corrupt: it settles
(with a failure) at instant 3 while its siblings settle at 1, 2, 4 and 5. -/
def batchWithOneFailure : List ItemTask :=
  [⟨.success, 1⟩, ⟨.success, 2⟩, ⟨.failure, 3⟩, ⟨.success, 4⟩, ⟨.success, 5⟩]

/-! ## Theorems -/

/-! ### Filename derivation -/

theorem lastDotIdx_of_not_mem (cs : List Char) (h : '.' ∉ cs) :
    lastDotIdx cs = -1 := by
  induction cs with
  | nil => rfl
  | cons c rest ih =>
    have hc : ¬ c = '.' := fun hc => h (hc ▸ List.mem_cons_self c rest)
    have hrest : '.' ∉ rest := fun hr => h (List.mem_cons_of_mem c hr)
    simp [lastDotIdx, ih hrest, hc]

theorem lastDotIdx_append_dot (b e : List Char) (h : '.' ∉ e) :
    lastDotIdx (b ++ '.' :: e) = (b.length : Int) := by
  induction b with
  | nil => simp [lastDotIdx, lastDotIdx_of_not_mem e h]
  | cons c rest ih =>
    simp only [List.cons_append, lastDotIdx, ih]
    simp
    omega

theorem jsBasename_append_dot (b e : List Char) (h : '.' ∉ e) :
    jsBasename (String.mk (b ++ '.' :: e)) = String.mk b := by
  unfold jsBasename
  simp [lastDotIdx_append_dot b e h, List.take_left]

/-- C5: For every successful conversion of a file whose name has an
extension (name = basename ++ "." ++ extension, with no dot in the
extension), the filename delivered by `handleConvert` is the original
basename plus the canonical extension of the target format: target `jpeg`
yields `.jpg`, and every other target format `X` yields `.X`. -/
theorem derived_filename_replaces_extension (b e : List Char) (fmt : String)
    (h : '.' ∉ e) :
    (fmt = "jpeg" →
      deriveFileName (String.mk (b ++ '.' :: e)) fmt = String.mk b ++ ".jpg") ∧
    (fmt ≠ "jpeg" →
      deriveFileName (String.mk (b ++ '.' :: e)) fmt = String.mk b ++ "." ++ fmt) := by
  unfold deriveFileName getFileExtension
  rw [jsBasename_append_dot b e h]
  constructor
  · intro hf
    apply String.ext
    simp [hf]
  · intro hf
    apply String.ext
    simp [hf]

/-- Witness for C5 at the spec's own example: converting `photo.png` to
`jpeg` yields `photo.jpg`, and to `webp` yields `photo.webp`. -/
theorem derived_filename_replaces_extension_witness :
    deriveFileName "photo.png" "jpeg" = "photo.jpg" ∧
    deriveFileName "photo.png" "webp" = "photo.webp" := by
  constructor
  · exact (derived_filename_replaces_extension
      ['p', 'h', 'o', 't', 'o'] ['p', 'n', 'g'] "jpeg" (by decide)).1 rfl
  · exact (derived_filename_replaces_extension
      ['p', 'h', 'o', 't', 'o'] ['p', 'n', 'g'] "webp" (by decide)).2 (by decide)

/-- C10: for a source filename containing no dot, `lastIndexOf('.')` is `-1`
and JavaScript `substring(0, -1)` clamps to the empty string, so the
delivered filename is just `"."` plus the target extension — the original
name is not preserved. -/
theorem derived_filename_dotless (cs : List Char) (fmt : String)
    (h : '.' ∉ cs) :
    jsBasename (String.mk cs) = "" ∧
    deriveFileName (String.mk cs) fmt = "." ++ getFileExtension fmt := by
  have hbase : jsBasename (String.mk cs) = "" := by
    unfold jsBasename
    simp [lastDotIdx_of_not_mem cs h]
  refine ⟨hbase, ?_⟩
  unfold deriveFileName
  rw [hbase]
  rfl

/-- Witness for C10 at the claim's example: converting a file named `photo`
to `png` suggests the filename `.png`. -/
theorem derived_filename_dotless_witness :
    deriveFileName "photo" "png" = ".png" := by
  exact (derived_filename_dotless ['p', 'h', 'o', 't', 'o'] "png" (by decide)).2

/-! ### Conversion pipeline -/

/-- C4: converting any decoded image to `ico` delivers a payload resampled
to exactly 32×32 whose delivered encoding is PNG, while every other target
format delivers a payload with the source's original width and height. -/
theorem convert_ico_is_32x32_png (img : Img) (fmt : String) :
    (fmt = "ico" →
      payloadDims (convertImage (some img) fmt) = some (32, 32) ∧
      payloadMime (convertImage (some img) fmt) = some "image/png") ∧
    (fmt ≠ "ico" →
      payloadDims (convertImage (some img) fmt) = some (img.width, img.height)) := by
  constructor
  · intro hf
    subst hf
    simp [convertImage, payloadDims, payloadMime, drawImage, fillRect, createCanvas]
  · intro hf
    by_cases hp : fmt = "pdf"
    · subst hp
      simp [convertImage, payloadDims, drawImage, fillRect, createCanvas]
    · simp [convertImage, payloadDims, hf, hp, drawImage, fillRect, createCanvas]

/-- Witness for C4: the 100×50 test raster becomes 32×32 PNG under `ico`
and keeps 100×50 under `png`. -/
theorem convert_ico_is_32x32_png_witness :
    payloadDims (convertImage (some testImg) "ico") = some (32, 32) ∧
    payloadMime (convertImage (some testImg) "ico") = some "image/png" ∧
    payloadDims (convertImage (some testImg) "png") = some (100, 50) := by
  refine ⟨((convert_ico_is_32x32_png testImg "ico").1 rfl).1,
          ((convert_ico_is_32x32_png testImg "ico").1 rfl).2, ?_⟩
  exact (convert_ico_is_32x32_png testImg "png").2 (by decide)

theorem over_white_alpha (s : RGBA) (h : s.a ≤ 255) :
    (over s white).a = 255 := by
  simp only [over, white]
  omega

theorem over_white_transparent (s : RGBA) (h : s.a = 0) :
    over s white = white := by
  simp [over, white, h]

/-- C6: for every decoded image and every target format, the delivered
bitmap is the source composited onto an opaque white background: every
delivered pixel is fully opaque, and wherever the (resampled) source pixel
is fully transparent the delivered pixel is white. -/
theorem filled_draw_width (img : Img) (w h : Nat) :
    (drawImage (fillRect (createCanvas w h) white 0 0 w h) img w h).width = w :=
  rfl

theorem filled_draw_height (img : Img) (w h : Nat) :
    (drawImage (fillRect (createCanvas w h) white 0 0 w h) img w h).height = h :=
  rfl

theorem filled_draw_pix (img : Img) (w h x y : Nat) (hx : x < w) (hy : y < h) :
    (drawImage (fillRect (createCanvas w h) white 0 0 w h) img w h).pix x y =
      over (img.pix (x * img.width / w) (y * img.height / h)) white := by
  show (if x < w ∧ y < h then
          over (img.pix (x * img.width / w) (y * img.height / h))
            (if 0 ≤ x ∧ x < 0 + w ∧ 0 ≤ y ∧ y < 0 + h then white
             else (createCanvas w h).pix x y)
        else _) = _
  rw [if_pos ⟨hx, hy⟩, if_pos ⟨Nat.zero_le x, by omega, Nat.zero_le y, by omega⟩]

theorem convert_flattens_onto_white (img : Img) (fmt : String) (c : Canvas)
    (hc : resultCanvas (convertImage (some img) fmt) = some c)
    (ha : ∀ i j, (img.pix i j).a ≤ 255) (x y : Nat)
    (hx : x < c.width) (hy : y < c.height) :
    (c.pix x y).a = 255 ∧
    ((img.pix (x * img.width / c.width) (y * img.height / c.height)).a = 0 →
      c.pix x y = white) := by
  have hc' : c = drawImage
      (fillRect (createCanvas (if fmt = "ico" then 32 else img.width)
        (if fmt = "ico" then 32 else img.height)) white 0 0
        (if fmt = "ico" then 32 else img.width)
        (if fmt = "ico" then 32 else img.height)) img
      (if fmt = "ico" then 32 else img.width)
      (if fmt = "ico" then 32 else img.height) := by
    by_cases hp : fmt = "pdf"
    · subst hp
      simp [convertImage, resultCanvas] at hc
      exact hc.symm
    · simp [convertImage, resultCanvas, hp] at hc
      exact hc.symm
  subst hc'
  rw [filled_draw_width] at hx
  rw [filled_draw_height] at hy
  rw [filled_draw_width, filled_draw_pix img _ _ x y hx hy]
  constructor
  · exact over_white_alpha _ (ha _ _)
  · intro htr
    exact over_white_transparent _ htr

/-- Witness for C6: converting the fully transparent 4×4 raster to `png`
(a format that supports transparency) delivers opaque white at pixel
(1, 2) — the source alpha is discarded. -/
theorem convert_flattens_onto_white_witness :
    resultPixel (convertImage (some transparentImg) "png") 1 2 = some white := by
  have hc : resultCanvas (convertImage (some transparentImg) "png") =
      some (drawImage (fillRect (createCanvas 4 4) white 0 0 4 4)
        transparentImg 4 4) := rfl
  have h := convert_flattens_onto_white transparentImg "png" _ hc
    (fun i j => by simp [transparentImg]) 1 2 (by decide) (by decide)
  have hw := h.2 (by simp [transparentImg])
  unfold resultPixel
  rw [hc]
  simpa using hw

/-! ### Format handling: no runtime validation (C2) -/

/-- C2 is false of the code; this is the amended statement.  `convertImage`
never validates its format argument: the closed set is enforced only by the
static `OutputFormat` type.  For any format string with no `formatToMime`
entry, decoding is still attempted first (a corrupt input rejects with the
decode error, not a validation error), and on a good input the conversion
succeeds, falling back to the platform-default `image/png` encoding at the
source's dimensions. -/
theorem convert_has_no_format_validation (decoded : Option Img) (fmt : String)
    (h : formatToMime.lookup fmt = none) :
    (decoded = none → isDecodeErr (convertImage decoded fmt) = true) ∧
    (∀ img, decoded = some img →
      payloadMime (convertImage decoded fmt) = some "image/png" ∧
      payloadDims (convertImage decoded fmt) = some (img.width, img.height)) := by
  have hico : fmt ≠ "ico" := by
    rintro rfl
    exact absurd h (by decide)
  have hpdf : fmt ≠ "pdf" := by
    rintro rfl
    exact absurd h (by decide)
  constructor
  · rintro rfl
    rfl
  · rintro img rfl
    constructor
    · simp [convertImage, payloadMime, hico, hpdf, h]
    · simp [convertImage, payloadDims, hico, hpdf, drawImage, fillRect, createCanvas]

/-- Witness for C2's amended statement at the out-of-set format `"xyz"`. -/
theorem convert_has_no_format_validation_witness :
    isDecodeErr (convertImage none "xyz") = true ∧
    payloadMime (convertImage (some goodImg) "xyz") = some "image/png" ∧
    payloadDims (convertImage (some goodImg) "xyz") = some (2, 3) := by
  refine ⟨(convert_has_no_format_validation none "xyz" (by decide)).1 rfl, ?_, ?_⟩
  · exact ((convert_has_no_format_validation (some goodImg) "xyz" (by decide)).2
      goodImg rfl).1
  · exact ((convert_has_no_format_validation (some goodImg) "xyz" (by decide)).2
      goodImg rfl).2

/-- Counterexample to C2 as stated: with the out-of-set format `"xyz"` and
a well-formed 2×3 image, `convertImage` does not fail with a validation
error — it succeeds and delivers a PNG payload; and with corrupt bytes it
attempts the decode first, rejecting with the decode error. -/
theorem format_validation_counterexample :
    payloadMime (convertImage (some goodImg) "xyz") = some "image/png" ∧
    payloadDims (convertImage (some goodImg) "xyz") = some (2, 3) ∧
    isDecodeErr (convertImage none "xyz") = true := by
  refine ⟨?_, ?_, rfl⟩
  · rfl
  · rfl

/-! ### Per-card state machine (C7) -/

/-- Counterexample to C7 as stated: conversions can overlap (Convert on a
card, then Convert All re-invoking `handleConvert` on the same card), and
`handleConvert`'s continuation runs unconditionally after its `await`.  In
the reachable trace below the first conversion settles successfully and the
still-pending second conversion then fails: the card makes a
`success → error` transition — outside the claimed transition set — and the
stale result stays populated in the `error` state, so the result is not
populated exactly when the status is `success`. -/
theorem card_overlap_counterexample :
    CardStep initialCardState (startConvert initialCardState (some "png")) ∧
    CardStep (startConvert initialCardState (some "png"))
      overlapConvertingState ∧
    CardStep overlapConvertingState overlapSuccessState ∧
    CardStep overlapSuccessState
      (finishConvert overlapSuccessState "png" "a.png"
        (convertImage none "png")) ∧
    overlapSuccessState.status = ConversionStatus.success ∧
    (finishConvert overlapSuccessState "png" "a.png"
      (convertImage none "png")).status = ConversionStatus.error ∧
    ¬ allowedTransition ConversionStatus.success ConversionStatus.error ∧
    (finishConvert overlapSuccessState "png" "a.png"
      (convertImage none "png")).result.isSome = true ∧
    ¬ CardInv (finishConvert overlapSuccessState "png" "a.png"
      (convertImage none "png")) := by
  refine ⟨CardStep.start _ _, CardStep.start _ _, ?_, CardStep.finish _ _ _ _,
    rfl, rfl, by decide, rfl, ?_⟩
  · exact CardStep.finish overlapConvertingState "png" "a.png"
      (convertImage (some goodImg) "png")
  · unfold CardInv
    decide

/-- C7 amended: the per-card machine behaves as claimed only while
conversions do not overlap.  A result is stored in the `success` state
initially; a convert request always enters `converting` with the prior
result cleared; and every step preserves the invariant "result populated
iff success" except a failed settlement landing on a `success` state (a
late overlapped failure), which keeps the stale result populated in the
`error` state.  Every status-changing step is one of the claimed
transitions (`idle → converting`, `converting → success | error`, restart
`success | error → converting`) or is a settlement firing from a
non-`converting` state — possible only under overlapping conversions. -/
theorem card_status_machine_amended (s t : CardState) :
    CardInv initialCardState ∧
    (CardStep s t → CardInv s →
      CardInv t ∨
        (s.status = ConversionStatus.success ∧
         t.status = ConversionStatus.error ∧ t.result.isSome = true)) ∧
    (CardStep s t → t.status ≠ s.status →
      allowedTransition s.status t.status ∨
        (s.status ≠ ConversionStatus.converting ∧
         (t.status = ConversionStatus.success ∨
          t.status = ConversionStatus.error))) ∧
    (∀ u : CardState, ∀ fmt : Option String,
      (startConvert u fmt).status = ConversionStatus.converting ∧
      (startConvert u fmt).result = none) := by
  refine ⟨by simp [CardInv, initialCardState], ?_, ?_, fun u fmt => ⟨rfl, rfl⟩⟩
  · intro hstep hinv
    cases hstep with
    | start fmt => exact Or.inl (by simp [CardInv, startConvert])
    | finish finalFormat origName outcome =>
      cases outcome with
      | ok payload => exact Or.inl (by simp [CardInv, finishConvert])
      | error e =>
        cases hres : s.result with
        | none => exact Or.inl (by simp [CardInv, finishConvert, hres])
        | some v =>
          refine Or.inr ⟨hinv.mp (by simp [hres]), rfl, ?_⟩
          simp [finishConvert, hres]
    | select fmt h =>
      exact Or.inl (by simpa [CardInv] using hinv)
  · intro hstep hne
    cases hstep with
    | start fmt =>
      have ht : (startConvert s fmt).status = ConversionStatus.converting := rfl
      rw [ht] at hne ⊢
      refine Or.inl ?_
      unfold allowedTransition
      cases hs : s.status with
      | idle => exact Or.inl ⟨rfl, rfl⟩
      | converting => exact absurd (hs ▸ rfl) hne.symm
      | success => exact Or.inr (Or.inr ⟨Or.inl rfl, rfl⟩)
      | error => exact Or.inr (Or.inr ⟨Or.inr rfl, rfl⟩)
    | finish finalFormat origName outcome =>
      by_cases hs : s.status = ConversionStatus.converting
      · refine Or.inl ?_
        rw [hs]
        unfold allowedTransition
        cases outcome with
        | ok payload => exact Or.inr (Or.inl ⟨rfl, Or.inl rfl⟩)
        | error e => exact Or.inr (Or.inl ⟨rfl, Or.inr rfl⟩)
      · refine Or.inr ⟨hs, ?_⟩
        cases outcome with
        | ok payload => exact Or.inl rfl
        | error e => exact Or.inr rfl
    | select fmt h =>
      exact absurd rfl hne

/-- Witness for C7's amended statement at concrete steps: the initial card
satisfies the invariant; the concrete `startConvert` step from it lands in
one of the amended preservation and transition disjuncts; and a convert
request clears the result. -/
theorem card_status_machine_amended_witness :
    CardInv initialCardState ∧
    (CardInv (startConvert initialCardState none) ∨
      (initialCardState.status = ConversionStatus.success ∧
       (startConvert initialCardState none).status = ConversionStatus.error ∧
       (startConvert initialCardState none).result.isSome = true)) ∧
    (allowedTransition initialCardState.status
        (startConvert initialCardState none).status ∨
      (initialCardState.status ≠ ConversionStatus.converting ∧
       ((startConvert initialCardState none).status = ConversionStatus.success ∨
        (startConvert initialCardState none).status =
          ConversionStatus.error))) ∧
    (startConvert initialCardState (some "gif")).result = none := by
  refine ⟨(card_status_machine_amended initialCardState initialCardState).1,
    ?_, ?_,
    ((card_status_machine_amended initialCardState initialCardState).2.2.2
      initialCardState (some "gif")).2⟩
  · exact (card_status_machine_amended initialCardState
      (startConvert initialCardState none)).2.1
      (CardStep.start initialCardState none) (by unfold CardInv; decide)
  · exact (card_status_machine_amended initialCardState
      (startConvert initialCardState none)).2.2.1
      (CardStep.start initialCardState none) (by decide)

/-! ### Batch conversion under Promise.all (C1) -/

theorem nat_min?_le (l : List Nat) (a : Nat) (h : l.min? = some a) (b : Nat)
    (hb : b ∈ l) : a ≤ b := by
  rw [List.min?_eq_some_iff] at h
  · exact h.2 b hb
  · intro x
    simp
  · intro x y
    exact min_choice x y
  · intro x y z
    exact Nat.le_min

/-- Counterexample to C1 as stated: for the batch of five items whose third
is corrupt (failing at instant 3, siblings finishing at 1, 2, 4 and 5), the
`Promise.all` awaited by `handleConvertAll` settles at instant 3 — strictly
before the last item reaches a terminal state at instant 5 — and the
reported toast is the generic failure message, not a count of 4 successes
and 1 failure. -/
theorem convertAll_shortcircuits_counterexample :
    promiseAllSettleTime batchWithOneFailure = 3 ∧
    lastSettleTime batchWithOneFailure = 5 ∧
    promiseAllSettleTime batchWithOneFailure < lastSettleTime batchWithOneFailure ∧
    handleConvertAllToast batchWithOneFailure "png" = BatchToast.batchFailed := by
  refine ⟨rfl, rfl, ?_, rfl⟩
  decide

/-- C1 amended: `handleConvertAll` awaits `Promise.all`, so when every item
succeeds it reports only after the last item settles (with the total count),
but when any item fails it reports the generic failure toast — carrying no
success/failure counts — as soon as the first rejection settles, which is no
later than (and possibly before) each failing item's settle instant; sibling
tasks themselves are never cancelled. -/
theorem convertAll_promiseAll_behaviour (ts : List ItemTask) (fmt : String) :
    ((∀ t ∈ ts, t.outcome = ItemOutcome.success) →
      promiseAllSettleTime ts = lastSettleTime ts ∧
      handleConvertAllToast ts fmt = BatchToast.batchComplete ts.length fmt) ∧
    (∀ t ∈ ts, t.outcome = ItemOutcome.failure →
      handleConvertAllToast ts fmt = BatchToast.batchFailed ∧
      promiseAllSettleTime ts ≤ t.settleTime) := by
  constructor
  · intro hall
    have hfilt : ts.filter (fun t => t.outcome = ItemOutcome.failure) = [] := by
      rw [List.filter_eq_nil_iff]
      intro t ht
      simp [hall t ht]
    constructor
    · unfold promiseAllSettleTime firstRejectTime
      rw [hfilt]
      rfl
    · unfold handleConvertAllToast
      rw [if_pos]
      rw [List.all_eq_true]
      intro t ht
      simpa using hall t ht
  · intro t ht hfail
    have hmem : t.settleTime ∈
        (ts.filter (fun u => u.outcome = ItemOutcome.failure)).map
          (fun u => u.settleTime) := by
      apply List.mem_map_of_mem
      rw [List.mem_filter]
      exact ⟨ht, by simp [hfail]⟩
    constructor
    · unfold handleConvertAllToast
      rw [if_neg]
      rw [List.all_eq_true]
      intro hc
      have := hc t ht
      simp [hfail] at this
    · unfold promiseAllSettleTime
      cases hmin : firstRejectTime ts with
      | none =>
        unfold firstRejectTime at hmin
        rw [List.min?_eq_none_iff] at hmin
        rw [hmin] at hmem
        exact absurd hmem (List.not_mem_nil _)
      | some m =>
        exact nat_min?_le _ m hmin t.settleTime hmem

/-- Witness for C1's amended statement: a one-success batch reports the
count after its only task settles, and a batch containing a failure at
instant 7 reports the generic failure no later than instant 7. -/
theorem convertAll_promiseAll_behaviour_witness :
    (promiseAllSettleTime [⟨ItemOutcome.success, 4⟩] =
        lastSettleTime [⟨ItemOutcome.success, 4⟩] ∧
      handleConvertAllToast [⟨ItemOutcome.success, 4⟩] "png" =
        BatchToast.batchComplete 1 "png") ∧
    (handleConvertAllToast [⟨ItemOutcome.success, 1⟩, ⟨ItemOutcome.failure, 7⟩]
        "gif" = BatchToast.batchFailed ∧
      promiseAllSettleTime [⟨ItemOutcome.success, 1⟩, ⟨ItemOutcome.failure, 7⟩]
        ≤ 7) := by
  constructor
  · exact (convertAll_promiseAll_behaviour [⟨ItemOutcome.success, 4⟩] "png").1
      (by decide)
  · exact (convertAll_promiseAll_behaviour
      [⟨ItemOutcome.success, 1⟩, ⟨ItemOutcome.failure, 7⟩] "gif").2
      ⟨ItemOutcome.failure, 7⟩ (by decide) rfl

/-! ### Upload handling (C3, C8) -/

theorem allocPreviews_map_id (u : UrlStore) (fs : List RFile) :
    (allocPreviews u fs).1.map (fun x => x.id) = fs.map fileId := by
  induction fs generalizing u with
  | nil => rfl
  | cons f rest ih => simp [allocPreviews, ih]

theorem allocPreviews_mem (u : UrlStore) (fs : List RFile) (x : IFile)
    (hx : x ∈ (allocPreviews u fs).1) : x.file ∈ fs ∧ x.id = fileId x.file := by
  induction fs generalizing u with
  | nil => exact absurd hx (List.not_mem_nil x)
  | cons f rest ih =>
    simp only [allocPreviews, List.mem_cons] at hx
    cases hx with
    | inl h => subst h; exact ⟨List.mem_cons_self f rest, rfl⟩
    | inr h =>
      obtain ⟨h1, h2⟩ := ih _ h
      exact ⟨List.mem_cons_of_mem f h1, h2⟩

theorem allocPreviews_eq_nil_iff (u : UrlStore) (fs : List RFile) :
    (allocPreviews u fs).1 = [] ↔ fs = [] := by
  cases fs with
  | nil => simp [allocPreviews]
  | cons f rest => simp [allocPreviews]

theorem handleFiles_of_no_images (s : ClientState) (batch : List RFile)
    (h : batch.filter (fun f => strStartsWith f.type "image/") = []) :
    handleFiles s batch =
      { s with
          urls := (allocPreviews s.urls
            (batch.filter (fun f => strStartsWith f.type "image/"))).2,
          toasts := ClientToast.invalidFileType :: s.toasts } := by
  simp only [handleFiles]
  rw [if_pos]
  rw [List.isEmpty_iff, allocPreviews_eq_nil_iff]
  exact h

theorem handleFiles_of_images (s : ClientState) (batch : List RFile)
    (h : batch.filter (fun f => strStartsWith f.type "image/") ≠ []) :
    handleFiles s batch =
      { s with
          files := s.files ++
            (allocPreviews s.urls
              (batch.filter (fun f => strStartsWith f.type "image/"))).1.filter
              (fun f => !((s.files.map (fun x => x.id)).contains f.id)),
          urls := (allocPreviews s.urls
            (batch.filter (fun f => strStartsWith f.type "image/"))).2 } := by
  simp only [handleFiles]
  rw [if_neg]
  rw [List.isEmpty_iff, allocPreviews_eq_nil_iff]
  exact h

/-- Counterexample to C3 as stated: a single `handleFiles` call whose
incoming list repeats the same file produces two items with the same
identity — the de-duplication filter checks only against the previously
present items, not within the incoming batch. -/
theorem identity_dedup_counterexample :
    ((handleFiles initialClientState [dupFile, dupFile]).files.map
      (fun f => f.id)) = ["a.png-1-10", "a.png-1-10"] := by
  rfl

/-- C3 amended: the de-duplication filter of `handleFiles` checks new items
only against the already-present identities, so the invariant "at most one
item per identity" is kept provided each single incoming batch carries
pairwise-distinct identities; under that proviso stored identities stay
pairwise distinct, and a batch all of whose image-typed entries are
already present leaves the item list unchanged (re-adding is a no-op). -/
theorem handleFiles_identity_dedup (s : ClientState) (batch : List RFile)
    (hs : (s.files.map (fun f => f.id)).Nodup)
    (hb : (batch.map fileId).Nodup) :
    ((handleFiles s batch).files.map (fun f => f.id)).Nodup ∧
    ((∀ f ∈ batch, strStartsWith f.type "image/" = true →
        fileId f ∈ s.files.map (fun x => x.id)) →
      (handleFiles s batch).files = s.files) := by
  by_cases hempty : batch.filter (fun f => strStartsWith f.type "image/") = []
  · rw [handleFiles_of_no_images s batch hempty]
    exact ⟨hs, fun _ => rfl⟩
  · rw [handleFiles_of_images s batch hempty]
    constructor
    · rw [List.map_append, List.nodup_append]
      refine ⟨hs, ?_, ?_⟩
      · have hsub1 : List.Sublist
            (((allocPreviews s.urls
              (batch.filter (fun f => strStartsWith f.type "image/"))).1.filter
              (fun f => !((s.files.map (fun x => x.id)).contains f.id))).map
              (fun x => x.id))
            ((allocPreviews s.urls
              (batch.filter (fun f => strStartsWith f.type "image/"))).1.map
              (fun x => x.id)) :=
          (List.filter_sublist _).map _
        have hsub2 : List.Sublist
            ((batch.filter (fun f => strStartsWith f.type "image/")).map fileId)
            (batch.map fileId) :=
          (List.filter_sublist _).map _
        rw [allocPreviews_map_id] at hsub1
        exact (hb.sublist hsub2).sublist hsub1
      · intro a ha hcontra
        simp only [List.mem_map] at hcontra
        obtain ⟨y, hy, hyid⟩ := hcontra
        rw [List.mem_filter] at hy
        have hnc : y.id ∉ s.files.map (fun f => f.id) := by
          simpa using hy.2
        exact hnc (hyid ▸ ha)
    · intro hpresent
      have hfilt : (allocPreviews s.urls
          (batch.filter (fun f => strStartsWith f.type "image/"))).1.filter
          (fun f => !((s.files.map (fun x => x.id)).contains f.id)) = [] := by
        rw [List.filter_eq_nil_iff]
        intro y hy
        obtain ⟨hfile, hid⟩ := allocPreviews_mem _ _ y hy
        rw [List.mem_filter] at hfile
        have hmem := hpresent y.file hfile.1 hfile.2
        simp only [hid]
        simpa using hmem
      rw [hfilt, List.append_nil]

/-- Witness for C3's amended statement: starting from the one-item state,
re-adding the same file keeps identities distinct and leaves the item list
unchanged. -/
theorem handleFiles_identity_dedup_witness :
    ((handleFiles oneItemState [dupFile]).files.map (fun f => f.id)).Nodup ∧
    (handleFiles oneItemState [dupFile]).files = oneItemState.files := by
  have h := handleFiles_identity_dedup oneItemState [dupFile] (by decide) (by decide)
  exact ⟨h.1, h.2 (by decide)⟩

/-- C8: `handleFiles` keeps only image-typed entries.  If no image-typed
entry remains it raises the invalid-file-type toast and leaves the item set
completely unchanged; otherwise it raises no toast and merges: the existing
items stay in place, every appended item is image-typed, and every
image-typed incoming file's identity is present afterwards. -/
theorem handleFiles_filters_images (s : ClientState) (batch : List RFile) :
    (batch.filter (fun f => strStartsWith f.type "image/") = [] →
      (handleFiles s batch).files = s.files ∧
      (handleFiles s batch).toasts = ClientToast.invalidFileType :: s.toasts) ∧
    (batch.filter (fun f => strStartsWith f.type "image/") ≠ [] →
      (handleFiles s batch).toasts = s.toasts ∧
      (∃ added, (handleFiles s batch).files = s.files ++ added ∧
        ∀ x ∈ added, strStartsWith x.file.type "image/" = true) ∧
      (∀ f ∈ batch, strStartsWith f.type "image/" = true →
        fileId f ∈ (handleFiles s batch).files.map (fun x => x.id))) := by
  constructor
  · intro hempty
    rw [handleFiles_of_no_images s batch hempty]
    exact ⟨rfl, rfl⟩
  · intro hne
    rw [handleFiles_of_images s batch hne]
    refine ⟨rfl, ⟨_, rfl, ?_⟩, ?_⟩
    · intro x hx
      rw [List.mem_filter] at hx
      obtain ⟨hfile, _⟩ := allocPreviews_mem _ _ x hx.1
      rw [List.mem_filter] at hfile
      exact hfile.2
    · intro f hf himg
      rw [List.map_append, List.mem_append]
      by_cases hin : fileId f ∈ s.files.map (fun x => x.id)
      · exact Or.inl hin
      · refine Or.inr ?_
        have hidmem : fileId f ∈ (allocPreviews s.urls
            (batch.filter (fun g => strStartsWith g.type "image/"))).1.map
            (fun x => x.id) := by
          rw [allocPreviews_map_id]
          exact List.mem_map_of_mem fileId (List.mem_filter.mpr ⟨hf, himg⟩)
        rw [List.mem_map] at hidmem
        obtain ⟨x, hx, hxid⟩ := hidmem
        rw [List.mem_map]
        refine ⟨x, ?_, hxid⟩
        rw [List.mem_filter]
        refine ⟨hx, ?_⟩
        rw [hxid] at *
        simpa using hin

/-- Witness for C8: a text file is rejected with the toast and no item is
added, while an image file is merged with no toast and its identity is
present afterwards. -/
theorem handleFiles_filters_images_witness :
    (handleFiles initialClientState [⟨"notes.txt", 2, 5, "text/plain"⟩]).files
        = [] ∧
    (handleFiles initialClientState [⟨"notes.txt", 2, 5, "text/plain"⟩]).toasts
        = [ClientToast.invalidFileType] ∧
    (handleFiles initialClientState [dupFile]).toasts = [] ∧
    fileId dupFile ∈
      (handleFiles initialClientState [dupFile]).files.map (fun x => x.id) := by
  have h1 := (handleFiles_filters_images initialClientState
    [⟨"notes.txt", 2, 5, "text/plain"⟩]).1 (by decide)
  have h2 := (handleFiles_filters_images initialClientState [dupFile]).2
    (by decide)
  exact ⟨h1.1, h1.2, h2.1, h2.2.2 dupFile (by decide) (by decide)⟩

/-! ### Item removal and preview release (C9) -/

theorem find?_id_eq_of_nodup (s : List IFile) (x : IFile) (hx : x ∈ s)
    (hnd : (s.map (fun f => f.id)).Nodup) :
    s.find? (fun f => f.id = x.id) = some x := by
  cases hfind : s.find? (fun f => f.id = x.id) with
  | none =>
    rw [List.find?_eq_none] at hfind
    have := hfind x hx
    simp at this
  | some z =>
    have hzid : z.id = x.id := by
      have := List.find?_some hfind
      simpa using this
    have hzmem : z ∈ s := List.mem_of_find?_eq_some hfind
    have := List.inj_on_of_nodup_map hnd hzmem hx hzid
    rw [this]

theorem foldl_revoke_released (l : List IFile) (u : UrlStore) :
    (l.foldl (fun acc f => revokeObjectURL acc f.preview) u).released =
      (l.map (fun f => f.preview)).reverse ++ u.released := by
  induction l generalizing u with
  | nil => rfl
  | cons f rest ih =>
    rw [List.foldl_cons, ih]
    simp [revokeObjectURL]

/-- Counterexample to C9 as stated: in the reachable duplicate-identity
state built by one upload call repeating a file (two items with the same
identity holding preview tokens 0 and 1), `removeFile` on that identity
finds only the first duplicate and revokes its preview (token 0) yet the
filter evicts both items, so the second item's preview (token 1) is evicted
without ever being released — exactly the leak that the unconditional
claim rules out. -/
theorem removeFile_duplicate_leak_counterexample :
    (dupState.files.map (fun f => f.preview)) = [0, 1] ∧
    (removeFile dupState "a.png-1-10").files = [] ∧
    (removeFile dupState "a.png-1-10").urls.released = [0] ∧
    (1 : Nat) ∉ (removeFile dupState "a.png-1-10").urls.released := by
  refine ⟨rfl, rfl, rfl, by decide⟩

/-- C9 amended: previews are released exactly once in distinct-identity
states — the invariant `handleFiles` maintains whenever no single incoming
batch repeats an identity (in reachable duplicate-identity states
`removeFile` evicts every item with the id but revokes only the first one's
preview, leaking the rest; see the counterexample).  Under the controller
well-formedness invariant, `removeFile` on a present id revokes exactly the
removed item's preview (its revocation count becomes 1), evicts that item,
and leaves every other item in place with its preview unreleased; on an
absent id it is a no-op.  `removeAll` empties the set and revokes each
item's preview exactly once (no double release, no item's preview
leaked). -/
theorem remove_releases_previews_once (s : ClientState) (hWF : s.WF) :
    (∀ id, (∀ x ∈ s.files, x.id ≠ id) → removeFile s id = s) ∧
    (∀ x ∈ s.files,
      (removeFile s x.id).urls.released = x.preview :: s.urls.released ∧
      (removeFile s x.id).urls.released.count x.preview = 1 ∧
      x ∉ (removeFile s x.id).files ∧
      (∀ y ∈ s.files, y ≠ x →
        y ∈ (removeFile s x.id).files ∧
        y.preview ∉ (removeFile s x.id).urls.released)) ∧
    ((removeAll s).files = [] ∧
      ∀ x ∈ s.files, (removeAll s).urls.released.count x.preview = 1) := by
  obtain ⟨hids, hpvs, hlive⟩ := hWF
  refine ⟨?_, ?_, rfl, ?_⟩
  · intro id habsent
    have hfind : s.files.find? (fun f => f.id = id) = none := by
      rw [List.find?_eq_none]
      intro y hy
      simpa using habsent y hy
    have hfilter : s.files.filter (fun f => f.id ≠ id) = s.files := by
      rw [List.filter_eq_self]
      intro y hy
      simpa using habsent y hy
    unfold removeFile
    rw [hfind, hfilter]
  · intro x hx
    have hfind := find?_id_eq_of_nodup s.files x hx hids
    have hrel : (removeFile s x.id).urls.released =
        x.preview :: s.urls.released := by
      unfold removeFile
      rw [hfind]
      rfl
    refine ⟨hrel, ?_, ?_, ?_⟩
    · rw [hrel, List.count_cons_self,
        List.count_eq_zero.mpr (hlive x hx).2]
    · intro hmem
      unfold removeFile at hmem
      rw [List.mem_filter] at hmem
      simp at hmem
    · intro y hy hyx
      have hyid : y.id ≠ x.id := fun h =>
        hyx (List.inj_on_of_nodup_map hids hy hx h)
      constructor
      · unfold removeFile
        rw [List.mem_filter]
        exact ⟨hy, by simpa using hyid⟩
      · rw [hrel, List.mem_cons]
        rintro (h | h)
        · exact absurd (List.inj_on_of_nodup_map hpvs hy hx h) hyx
        · exact (hlive y hy).2 h
  · intro x hx
    have hrel : (removeAll s).urls.released =
        (s.files.map (fun f => f.preview)).reverse ++ s.urls.released :=
      foldl_revoke_released s.files s.urls
    rw [hrel, List.count_append, List.count_reverse,
      List.count_eq_one_of_mem hpvs (List.mem_map_of_mem _ hx),
      List.count_eq_zero.mpr (hlive x hx).2]

/-- Witness for C9 on the concrete one-item state: removing an absent id is
a no-op, and `removeAll` empties the set having revoked the single item's
preview (token 0) exactly once. -/
theorem remove_releases_previews_once_witness :
    removeFile oneItemState "missing" = oneItemState ∧
    (removeAll oneItemState).files = [] ∧
    (removeAll oneItemState).urls.released.count 0 = 1 := by
  have h := remove_releases_previews_once oneItemState
    (by unfold ClientState.WF; decide)
  refine ⟨h.1 "missing" (by decide), h.2.2.1, ?_⟩
  exact h.2.2.2 ⟨"a.png-1-10", dupFile, 0⟩ (by decide)
